import Mathlib

/-!
Formal model of the reactive-state core of this repository: EventEmitter,
Atom, Collection, Derive and the call Batcher.

Modelling conventions (shallow embedding of the TypeScript source):
* Listener functions are identified by numeric ids; reference equality of
  closures is id equality.
* JavaScript objects used as string-keyed maps are association lists that
  preserve insertion order (updating an existing key keeps its position,
  a new key is appended), matching JS property-order semantics.
* Emitted events are made observable by returning or accumulating the list
  of emissions.
* Heap-allocated Atom objects live in an indexed store (`World.atoms`); an
  atom reference is an index into that store.
-/

namespace Reactivex

/-! ### Association-list primitives (JS object as a string-keyed map) -/

/-- Lookup of `obj[k]` (`undefined` is `none`). -/
def alookup {α : Type} : List (String × α) → String → Option α
  | [], _ => none
  | (k1, v1) :: rest, k => if k1 == k then some v1 else alookup rest k

/-- `obj[k] = v`: existing key keeps its position, a new key is appended. -/
def aset {α : Type} (l : List (String × α)) (k : String) (v : α) : List (String × α) :=
  match l with
  | [] => [(k, v)]
  | (k1, v1) :: rest =>
    if k1 == k then (k, v) :: rest else (k1, v1) :: aset rest k v

/-- `delete obj[k]`. -/
def aerase {α : Type} (l : List (String × α)) (k : String) : List (String × α) :=
  l.filter (fun p => p.1 != k)

/-! ### Atom (`atom.ts`)

`Atom.set` resolves an updater argument against the current value, then
compares old and new value with the configured equality policy `isEqual`
(default: strict reference equality); only on inequality does it store the
new value and emit one `update` event carrying it. -/

/-- Argument of `Atom.set`: a literal value, or a setter function
(anything callable is treated as an updater, per `isSetFn`). -/
inductive SetArg (V : Type) where
  | val (v : V)
  | fn (f : V → V)

/-- The single-value state of an `Atom`. -/
structure AtomState (V : Type) where
  value : V
deriving DecidableEq

/-- `Atom.get`. -/
def AtomState.get {V : Type} (st : AtomState V) : V :=
  st.value

/-- `Atom.set(valueOrUpdater)`: returns the next state together with the
list of `update` events emitted by this call. -/
def AtomState.set {V : Type} (isEqual : V → V → Bool) (st : AtomState V)
    (arg : SetArg V) : AtomState V × List V :=
  let newValue := match arg with
    | SetArg.val v => v
    | SetArg.fn f => f st.value
  if isEqual st.value newValue then (st, [])
  else ({ value := newValue }, [newValue])

/-! ### Batcher (`create-batcher.ts`)

`timeoutId` mirrors the captured JS variable (`undefined` is `none`;
`setTimeout` ids are positive, hence truthy). `armed` is the set of timers
currently scheduled in the host; `flushes` records every invocation of the
`flush` callback with its argument. -/

structure BatcherState (A : Type) where
  calls : List (List A)
  timeoutId : Option Nat
  nextTid : Nat
  armed : List Nat
  flushes : List (List (List A))
deriving DecidableEq

/-- Fresh batcher as returned by `createBatcher`. -/
def BatcherState.init {A : Type} : BatcherState A :=
  { calls := [], timeoutId := none, nextTid := 1, armed := [], flushes := [] }

/-- `listener(...args)`: push the args; if `timeoutId` is falsy, arm a
timer and remember its id; otherwise do nothing further. -/
def BatcherState.listener {A : Type} (st : BatcherState A) (args : List A) :
    BatcherState A :=
  let st := { st with calls := st.calls ++ [args] }
  match st.timeoutId with
  | some _ => st
  | none =>
    { st with timeoutId := some st.nextTid, nextTid := st.nextTid + 1,
              armed := st.armed ++ [st.nextTid] }

/-- The host delivers timer `tid` (only if it is still scheduled): the
callback clears `timeoutId`, invokes `flush` with the accumulated calls,
then resets the accumulator. -/
def BatcherState.fire {A : Type} (st : BatcherState A) (tid : Nat) : BatcherState A :=
  if tid ∈ st.armed then
    { st with armed := st.armed.filter (fun t => t ≠ tid),
              timeoutId := none,
              flushes := st.flushes ++ [st.calls],
              calls := [] }
  else st

/-- `abort()`: `if (timeoutId) clearTimeout(timeoutId)` — note the source
never resets `timeoutId` to `undefined` here. -/
def BatcherState.abort {A : Type} (st : BatcherState A) : BatcherState A :=
  match st.timeoutId with
  | some tid => { st with armed := st.armed.filter (fun t => t ≠ tid) }
  | none => st

/-- External events a batcher can experience. -/
inductive BEvent (A : Type) where
  | call (args : List A)
  | halt
  | tick (tid : Nat)

/-- One event step. -/
def BatcherState.step {A : Type} (st : BatcherState A) : BEvent A → BatcherState A
  | BEvent.call args => st.listener args
  | BEvent.halt => st.abort
  | BEvent.tick tid => st.fire tid

/-- Run a sequence of events. -/
def BatcherState.run {A : Type} (st : BatcherState A) (evs : List (BEvent A)) :
    BatcherState A :=
  evs.foldl BatcherState.step st

/-! ### EventEmitter (`event-emitter.ts`)

`_listeners` maps an event-type name to the ordered array of registered
listeners. A missing/falsy `type` is the empty string (the only falsy
string); a missing/falsy `listener` argument is `none`. -/

abbrev ListenerId := Nat

abbrev EmitterListeners := List (String × List ListenerId)

/-- `on(type, listener)`: validates arguments, then appends the listener
under the type (creating the entry when absent). -/
def EventEmitter.on (ls : EmitterListeners) (type : String)
    (listener : Option ListenerId) : Except String EmitterListeners :=
  if type = "" then Except.error "Cannot call on without a type"
  else
    match listener with
    | none => Except.error "Cannot call on without a listener"
    | some l =>
      let fns := (alookup ls type).getD []
      Except.ok (aset ls type (fns ++ [l]))

/-- `off(type, listener)`: validates arguments; if the type has no entry it
is a no-op; otherwise every listener reference-equal to the argument is
filtered out, and an emptied entry is deleted. -/
def EventEmitter.off (ls : EmitterListeners) (type : String)
    (listener : Option ListenerId) : Except String EmitterListeners :=
  if type = "" then Except.error "Cannot call off without a type"
  else
    match listener with
    | none => Except.error "Cannot call off without a listener"
    | some l =>
      match alookup ls type with
      | none => Except.ok ls
      | some fns =>
        let fns2 := fns.filter (fun fn => fn != l)
        if fns2.length > 0 then Except.ok (aset ls type fns2)
        else Except.ok (aerase ls type)

/-- The listeners a plain `emit(type, _)` invokes, in order (none of them
mutating the emitter; the reentrant case is modelled by `emitPass` below). -/
def EventEmitter.emitInvoked (ls : EmitterListeners) (type : String) : List ListenerId :=
  (alookup ls type).getD []

/-- `true` iff the call did not throw. -/
def exceptOk {E A : Type} : Except E A → Bool
  | Except.ok _ => true
  | Except.error _ => false

/-! ### Mid-emit mutation (`emit` + `on`/`off` reentrancy)

`emit` runs `this._listeners[type].forEach(listener => listener(event))`.
JS `forEach` fixes the element count at the start and iterates the array
object it was called on. A reentrant `off` installs a **new filtered
array** in the map (the iterated array object is untouched), while a
reentrant `on` **pushes in place** onto whatever array the map currently
holds. The state below tracks the map entry for the emitted type
(`entry`), the array object `forEach` iterates (`arr`), and whether the
two are still the same object (`aliased`). -/

/-- What a listener does when invoked during the emit pass. -/
inductive EmitAction where
  | idle
  | doOff (target : ListenerId)
  | doOn (newL : ListenerId)

structure EmitSt where
  entry : Option (List ListenerId)
  arr : List ListenerId
  aliased : Bool

/-- Effect of one reentrant `on`/`off` call on the emitter mid-pass. -/
def applyEmitAction : EmitAction → EmitSt → EmitSt
  | EmitAction.idle, st => st
  | EmitAction.doOff l, st =>
    match st.entry with
    | none => st
    | some fns =>
      let fns2 := fns.filter (fun fn => fn != l)
      { st with entry := if fns2.length > 0 then some fns2 else none,
                aliased := false }
  | EmitAction.doOn l, st =>
    match st.entry with
    | none => { st with entry := some [l], aliased := false }
    | some fns =>
      { entry := some (fns ++ [l]),
        arr := if st.aliased then st.arr ++ [l] else st.arr,
        aliased := st.aliased }

/-- The `forEach` loop over the fixed index range: at index `k` the current
content of the iterated array object is read, that listener is invoked
(recording it) and its reentrant effect is applied. -/
def emitPass (beh : ListenerId → EmitAction) : List Nat → EmitSt → EmitSt × List ListenerId
  | [], st => (st, [])
  | k :: ks, st =>
    let l := st.arr.getD k 0
    let st2 := applyEmitAction (beh l) st
    let res := emitPass beh ks st2
    (res.1, l :: res.2)

/-- A full `emit` pass: the element count is fixed up front, and at entry
to `emit` the map entry and the iterated array are the same object. -/
def emitRun (beh : ListenerId → EmitAction) (fns : List ListenerId) :
    EmitSt × List ListenerId :=
  emitPass beh (List.range fns.length) { entry := some fns, arr := fns, aliased := true }

/-! ### Derive (`derive.ts`)

`derive(atoms, select)` seeds a fresh derived atom with `select` applied to
all sources' current values and subscribes to every source; each source
`update` recomputes `select` over **all** current values and forwards the
result to the derived atom's `set` (which applies its own equality
policy). Sources here are positional atoms with their own equality policy
`eqV` (strict equality for atoms made by `atom(...)`). -/

structure DeriveState (V D : Type) where
  sources : List V
  derived : D
deriving DecidableEq

/-- Construction: `atom(select(...getAtomValuesAsArray(atoms)), options)`. -/
def deriveInit {V D : Type} (select : List V → D) (vals : List V) : DeriveState V D :=
  { sources := vals, derived := select vals }

/-- `set` on source `i`: the source atom applies its own change detection;
on a real change it emits, which triggers the derive subscription: recompute
over all current values and `set` the derived atom. The returned list holds
the `update` events emitted by the derived atom. -/
def sourceSet {V D : Type} (eqV : V → V → Bool) (eqD : D → D → Bool)
    (select : List V → D) (st : DeriveState V D) (i : Nat) (v : V) :
    DeriveState V D × List D :=
  match st.sources[i]? with
  | none => (st, [])
  | some old =>
    if eqV old v then (st, [])
    else
      let sources := st.sources.set i v
      let newD := select sources
      if eqD st.derived newD then ({ sources := sources, derived := st.derived }, [])
      else ({ sources := sources, derived := newD }, [newD])

/-! ### Collection (`collection.ts`)

A world holds the store of heap-allocated atoms and one Collection. Each
atom records its value and the collection subscriptions attached to it
(`SubRec`): subscription ids stand for the per-key handler closures created in
`_addAtom`, and are paired with the key the closure captured. The
collection owns the denormalized snapshot (`colValue`), the child map
(`colAtoms`, key to atom index) and the teardown metadata (`colMeta`, key
to the subscribed atom and subscription id recorded by the unsubscribe
handle). `events` accumulates the collection's own `update` emissions. -/

structure SubRec where
  sid : Nat
  key : String
deriving DecidableEq

structure AtomObj (V : Type) where
  value : V
  listeners : List SubRec
deriving DecidableEq

structure World (V : Type) where
  atoms : List (AtomObj V)
  colValue : List (String × V)
  colAtoms : List (String × Nat)
  colMeta : List (String × (Nat × Nat))
  nextSid : Nat
  events : List (List (String × V))
deriving DecidableEq

/-- A world with an empty atom store and an empty collection. -/
def World.empty {V : Type} : World V :=
  { atoms := [], colValue := [], colAtoms := [], colMeta := [], nextSid := 0, events := [] }

/-- Remove subscription `sid` from atom `aid` (the captured unsubscribe
handle: `off('update', handler)` on that child). -/
def atomUnsub {V : Type} (w : World V) (aid : Nat) (sid : Nat) : World V :=
  match w.atoms[aid]? with
  | none => w
  | some a =>
    { w with
      atoms := w.atoms.set aid ({ a with listeners := a.listeners.filter (fun s => s.sid != sid) }) }

/-- The handler closure `_addAtom` subscribes on a child for `key`: replace
the snapshot entry behind a fresh object and re-emit `update` with the full
new snapshot. -/
def colHandler {V : Type} (w : World V) (key : String) (v : V) : World V :=
  let newVal := aset w.colValue key v
  { w with colValue := newVal, events := w.events ++ [newVal] }

/-- `emit('update', v)` on atom `aid`'s side: run each attached collection
handler in registration order. -/
def notifySubs {V : Type} (subs : List SubRec) (v : V) (w : World V) : World V :=
  subs.foldl (fun w s => colHandler w s.key v) w

/-- `Atom.set` on the heap atom `aid` with a literal value (strict equality
policy, as produced by `atom(...)`): on change, store and notify the
attached collection handlers. -/
def atomSet {V : Type} [BEq V] (w : World V) (aid : Nat) (v : V) : World V :=
  match w.atoms[aid]? with
  | none => w
  | some a =>
    if a.value == v then w
    else
      let w2 := { w with atoms := w.atoms.set aid ({ a with value := v }) }
      notifySubs a.listeners v w2

/-- `Collection._addAtom(key, atom)`: tear down any existing subscription
at the key, install the child, seed the snapshot, subscribe the per-key
handler, record the unsubscribe metadata and emit one `update`. (In every
state reachable through the API, a present key always has matching
metadata and an installed child always exists in the store, so the `none`
fallbacks are never taken.) -/
def addAtom {V : Type} [Inhabited V] (w : World V) (key : String) (aid : Nat) : World V :=
  let w := match alookup w.colAtoms key with
    | none => w
    | some _ =>
      match alookup w.colMeta key with
      | none => w
      | some m => atomUnsub w m.1 m.2
  let av := match w.atoms[aid]? with
    | some a => a.value
    | none => default
  let w := { w with colAtoms := aset w.colAtoms key aid,
                    colValue := aset w.colValue key av }
  let sid := w.nextSid
  let w := match w.atoms[aid]? with
    | some a =>
      { w with
        atoms := w.atoms.set aid ({ a with listeners := a.listeners ++ [SubRec.mk sid key] }),
        nextSid := sid + 1 }
    | none => { w with nextSid := sid + 1 }
  let w := { w with colMeta := aset w.colMeta key (aid, sid) }
  { w with events := w.events ++ [w.colValue] }

/-- `Collection._removeAtomByKey(key)`: absent keys are silently skipped;
otherwise unsubscribe, delete the key from all three maps and emit one
`update` with the shrunk snapshot. -/
def removeAtom {V : Type} (w : World V) (key : String) : World V :=
  match alookup w.colAtoms key with
  | none => w
  | some _ =>
    let w := match alookup w.colMeta key with
      | none => w
      | some m => atomUnsub w m.1 m.2
    let w := { w with colValue := aerase w.colValue key,
                      colAtoms := aerase w.colAtoms key,
                      colMeta := aerase w.colMeta key }
    { w with events := w.events ++ [w.colValue] }

/-- `Collection.keys`. -/
def colKeys {V : Type} (w : World V) : List String :=
  w.colAtoms.map Prod.fst

/-- One key of `Collection.set`'s argument: if no child exists at the key,
`_addAtom(key, atom(value))` — a fresh Atom is allocated for the value and
installed; otherwise the value is forwarded to the existing child's `set`. -/
def colSetStep {V : Type} [BEq V] [Inhabited V] (w : World V) (key : String) (v : V) :
    World V :=
  match alookup w.colAtoms key with
  | none =>
    let aid := w.atoms.length
    addAtom { w with atoms := w.atoms ++ [{ value := v, listeners := [] }] } key aid
  | some aid => atomSet w aid v

/-- `Collection.set(valuesByKey)` over the argument's keys in order. -/
def colSet {V : Type} [BEq V] [Inhabited V] (w : World V) (vals : List (String × V)) :
    World V :=
  vals.foldl (fun w p => colSetStep w p.1 p.2) w

/-- One key of `Collection.sync`: a key absent from the argument is removed,
any other key has the incoming container installed via `_addAtom`. -/
def colSyncStep {V : Type} [Inhabited V] (incoming : List (String × Nat))
    (w : World V) (key : String) : World V :=
  match alookup incoming key with
  | none => removeAtom w key
  | some aid => addAtom w key aid

/-- `Collection.sync(atomsByKey)`: iterate the concatenation of the current
keys (evaluated once up front) and the argument's keys. -/
def colSync {V : Type} [Inhabited V] (w : World V) (incoming : List (String × Nat)) :
    World V :=
  (colKeys w ++ incoming.map Prod.fst).foldl (colSyncStep incoming) w

/-- Input entry of `Collection.from`: a plain value or a reference to an
existing Atom-capable container (detected via the `AtomSymbol` marker). -/
inductive AtomOrValue (V : Type) where
  | plain (v : V)
  | ref (aid : Nat)

/-- `Atom.from(value)`: an Atom-capable input has its **current value**
extracted; in all cases a brand-new Atom is allocated (cloning semantics).
Returns the world and the new atom's index. -/
def atomFrom {V : Type} [Inhabited V] (w : World V) (x : AtomOrValue V) :
    World V × Nat :=
  let v := match x with
    | AtomOrValue.plain v => v
    | AtomOrValue.ref aid =>
      match w.atoms[aid]? with
      | some a => a.value
      | none => default
  ({ w with atoms := w.atoms ++ [{ value := v, listeners := [] }] }, w.atoms.length)

/-- `Collection.from(atomsByKey)`: every entry is routed through
`Atom.from` first (building the constructor argument), then the
constructor installs each resulting atom with `_addAtom`. -/
def collectionFrom {V : Type} [Inhabited V] (w : World V)
    (inputs : List (String × AtomOrValue V)) : World V :=
  let built := inputs.foldl
    (fun (acc : World V × List (String × Nat)) p =>
      let res := atomFrom acc.1 p.2
      (res.1, acc.2 ++ [(p.1, res.2)]))
    (w, [])
  built.2.foldl (fun w p => addAtom w p.1 p.2) built.1


/-- Concrete mid-emit behaviors for the reentrancy scenario: listener 1
removes listener 3 via `off`, listener 2 adds listener 4 via `on`, all
others do nothing. -/
def beh10 : ListenerId → EmitAction
  | 1 => EmitAction.doOff 3
  | 2 => EmitAction.doOn 4
  | _ => EmitAction.idle

/-- The scenario projection `(q, p) => q * p` over positional source
values. -/
def mulSelect : List Nat → Nat :=
  fun vs => vs.getD 0 0 * vs.getD 1 0

/-- Scenario world for key replacement: atoms A (index 0, value 1) and
B (index 1, value 2); `c.add({x: atomA})` then `c.add({x: atomB})`. -/
def w8 : World Nat :=
  addAtom (addAtom
    { atoms := [{ value := 1, listeners := [] }, { value := 2, listeners := [] }],
      colValue := [], colAtoms := [], colMeta := [], nextSid := 0, events := [] }
    "x" 0) "x" 1

/-- Scenario world for `Collection.from`: one pre-existing Atom (index 0,
value 5) that will be passed as an Atom-capable input. -/
def wC4 : World Nat :=
  { atoms := [{ value := 5, listeners := [] }],
    colValue := [], colAtoms := [], colMeta := [], nextSid := 0, events := [] }

/-- Scenario world for `sync`: a collection holding atom 0 (value 1) at
key `x`; atom 1 (value 2) exists in the store as the incoming container. -/
def w1c3 : World Nat :=
  addAtom
    { atoms := [{ value := 1, listeners := [] }, { value := 2, listeners := [] }],
      colValue := [], colAtoms := [], colMeta := [], nextSid := 0, events := [] }
    "x" 0

/-!
## Theorems
-/

theorem alookup_aset_self {α : Type} (l : List (String × α)) (k : String) (v : α) :
    alookup (aset l k v) k = some v := by
  induction l with
  | nil => simp [alookup, aset]
  | cons p rest ih =>
    obtain ⟨k1, v1⟩ := p
    by_cases h : k1 = k
    · simp [aset, h, alookup]
    · simpa [aset, alookup, h] using ih

theorem alookup_aset_ne {α : Type} (l : List (String × α)) (k k2 : String) (v : α)
    (h : k2 ≠ k) : alookup (aset l k v) k2 = alookup l k2 := by
  induction l with
  | nil => simp [alookup, aset, Ne.symm h]
  | cons p rest ih =>
    obtain ⟨k1, v1⟩ := p
    by_cases h1 : k1 = k
    · subst h1
      simp [aset, alookup, Ne.symm h]
    · by_cases h2 : k1 = k2
      · simp [aset, alookup, h1, h2, h]
      · simpa [aset, alookup, h1, h2] using ih

theorem alookup_aerase_self {α : Type} (l : List (String × α)) (k : String) :
    alookup (aerase l k) k = none := by
  induction l with
  | nil => simp [alookup, aerase]
  | cons p rest ih =>
    obtain ⟨k1, v1⟩ := p
    by_cases h : k1 = k
    · simpa [aerase, h] using ih
    · simpa [aerase, alookup, h] using ih

theorem alookup_aerase_ne {α : Type} (l : List (String × α)) (k k2 : String)
    (h : k2 ≠ k) : alookup (aerase l k) k2 = alookup l k2 := by
  induction l with
  | nil => simp [alookup, aerase]
  | cons p rest ih =>
    obtain ⟨k1, v1⟩ := p
    by_cases h1 : k1 = k
    · subst h1
      simpa [aerase, alookup, Ne.symm h] using ih
    · by_cases h2 : k1 = k2
      · simp [aerase, alookup, h1, h2, h]
      · simpa [aerase, alookup, h1, h2] using ih

theorem alookup_eq_none_of_not_mem {α : Type} (l : List (String × α)) (k : String)
    (h : k ∉ l.map Prod.fst) : alookup l k = none := by
  induction l with
  | nil => simp [alookup]
  | cons p rest ih =>
    obtain ⟨k1, v1⟩ := p
    simp only [List.map_cons, List.mem_cons, not_or] at h
    simpa [alookup, h.1, Ne.symm h.1] using ih h.2

theorem mem_keys_of_alookup_eq_some {α : Type} (l : List (String × α)) (k : String)
    {v : α} (h : alookup l k = some v) : k ∈ l.map Prod.fst := by
  by_contra hmem
  rw [alookup_eq_none_of_not_mem l k hmem] at h
  exact Option.noConfusion h



/-! #### Atom claims -/

/-- C1. For every equality policy `isEqual` and all values `a`, `b`: when
`isEqual a b` holds, `set b` on an Atom holding `a` emits no `update` event
and `get` still returns `a`; when `isEqual a b` is false, `set b` emits
exactly one `update` event carrying `b` and `get` returns `b` afterwards. -/
theorem atom_set_change_detection {V : Type} (isEqual : V → V → Bool) (a b : V) :
    (isEqual a b = true →
      AtomState.set isEqual ⟨a⟩ (SetArg.val b) = (⟨a⟩, []) ∧
      (AtomState.set isEqual ⟨a⟩ (SetArg.val b)).1.get = a) ∧
    (isEqual a b = false →
      AtomState.set isEqual ⟨a⟩ (SetArg.val b) = (⟨b⟩, [b]) ∧
      (AtomState.set isEqual ⟨a⟩ (SetArg.val b)).1.get = b) := by
  constructor
  · intro h
    simp [AtomState.set, AtomState.get, h]
  · intro h
    simp [AtomState.set, AtomState.get, h]

/-- Witness for C1 at the strict-equality policy on `Nat`, `a = 1`,
`b = 1` (equal: no event) and `b = 2` (different: one event). -/
theorem atom_set_change_detection_witness :
    (AtomState.set (fun x y : Nat => x == y) ⟨1⟩ (SetArg.val 1) = (⟨1⟩, []) ∧
      (AtomState.set (fun x y : Nat => x == y) ⟨1⟩ (SetArg.val 1)).1.get = 1) ∧
    (AtomState.set (fun x y : Nat => x == y) ⟨1⟩ (SetArg.val 2) = (⟨2⟩, [2]) ∧
      (AtomState.set (fun x y : Nat => x == y) ⟨1⟩ (SetArg.val 2)).1.get = 2) :=
  ⟨(atom_set_change_detection (fun x y : Nat => x == y) 1 1).1 (by decide),
   (atom_set_change_detection (fun x y : Nat => x == y) 1 2).2 (by decide)⟩

/-! #### Batcher claims -/

/-- C6. While a timer is pending, each `listener` call only appends its
argument tuple (the state is otherwise untouched — in particular no second
timer is armed); when the armed timer fires, the flush callback receives
the entire accumulated list once and the accumulator is reset; `abort`
while pending flushes nothing, disarms the timer, and the cancelled
timer's firing is a no-op (zero flushes for that cycle). -/
theorem batcher_pending_invariant {A : Type} (st : BatcherState A)
    (args : List A) (t : Nat) :
    ((st.listener args).calls = st.calls ++ [args]) ∧
    (st.timeoutId = some t →
      st.listener args = { st with calls := st.calls ++ [args] }) ∧
    (t ∈ st.armed →
      (st.fire t).flushes = st.flushes ++ [st.calls] ∧ (st.fire t).calls = []) ∧
    (st.timeoutId = some t →
      st.abort.flushes = st.flushes ∧
      t ∉ st.abort.armed ∧
      st.abort.fire t = st.abort) := by
  refine ⟨?_, ?_, ?_, ?_⟩
  · cases h : st.timeoutId <;> simp [BatcherState.listener, h]
  · intro h
    simp [BatcherState.listener, h]
  · intro h
    simp [BatcherState.fire, h]
  · intro h
    have habort : st.abort = { st with armed := st.armed.filter (fun x => x ≠ t) } := by
      simp [BatcherState.abort, h]
    have hmem : t ∉ st.abort.armed := by
      rw [habort]
      simp
    refine ⟨by rw [habort], hmem, ?_⟩
    simp [BatcherState.fire, hmem]

/-- Witness for C6 on a concrete pending state. -/
theorem batcher_pending_invariant_witness :
    ((BatcherState.listener ⟨[[5]], some 1, 2, [1], []⟩ [7]).calls = [[5], [7]]) ∧
    ((BatcherState.fire (⟨[[5]], some 1, 2, [1], []⟩ : BatcherState Nat) 1).flushes = [[[5]]]) ∧
    (1 ∉ (BatcherState.abort (⟨[[5]], some 1, 2, [1], []⟩ : BatcherState Nat)).armed) := by
  have h := batcher_pending_invariant (⟨[[5]], some 1, 2, [1], []⟩ : BatcherState Nat) [7] 1
  exact ⟨h.1, (h.2.2.1 (by decide)).1, (h.2.2.2 rfl).2.1⟩

/-- C5 (code bug evidence). After `listener(); abort()`, the source leaves
`timeoutId` set while no timer remains scheduled; a subsequent `listener`
call therefore never arms a new timer, and no sequence of further events
can ever invoke `flush` again: the documented pending → (abort) → idle →
(listener) → pending cycle is broken. -/
theorem batcher_abort_bug :
    (∀ (A : Type) (a1 a2 : List A),
      BatcherState.run BatcherState.init [BEvent.call a1, BEvent.halt, BEvent.call a2] =
        { calls := [a1, a2], timeoutId := some 1, nextTid := 2, armed := [], flushes := [] }) ∧
    (∀ (A : Type) (st : BatcherState A) (t : Nat) (evs : List (BEvent A)),
      st.armed = [] → st.timeoutId = some t →
      (st.run evs).flushes = st.flushes ∧ (st.run evs).armed = [] ∧
      (st.run evs).timeoutId = some t) := by
  constructor
  · intro A a1 a2
    simp [BatcherState.run, BatcherState.step, BatcherState.init,
      BatcherState.listener, BatcherState.abort]
  · intro A st t evs
    induction evs generalizing st with
    | nil => intro h1 h2; exact ⟨rfl, h1, h2⟩
    | cons ev rest ih =>
      intro h1 h2
      have hstep : (st.step ev).flushes = st.flushes ∧ (st.step ev).armed = [] ∧
          (st.step ev).timeoutId = some t := by
        cases ev with
        | call args => simp [BatcherState.step, BatcherState.listener, h2, h1]
        | halt => simp [BatcherState.step, BatcherState.abort, h2, h1]
        | tick tid => simp [BatcherState.step, BatcherState.fire, h1, h2]
      have := ih (st.step ev) hstep.2.1 hstep.2.2
      exact ⟨by rw [show (st.run (ev :: rest)) = (st.step ev).run rest from rfl, this.1, hstep.1],
             by rw [show (st.run (ev :: rest)) = (st.step ev).run rest from rfl]; exact this.2.1,
             by rw [show (st.run (ev :: rest)) = (st.step ev).run rest from rfl]; exact this.2.2⟩

/-- Witness for C5: the concrete stuck run, and stuckness applied to it. -/
theorem batcher_abort_bug_witness :
    (BatcherState.run (BatcherState.init : BatcherState Nat)
        [BEvent.call [3], BEvent.halt, BEvent.call [4]]).flushes = [] ∧
    (BatcherState.run
        (BatcherState.run (BatcherState.init : BatcherState Nat)
          [BEvent.call [3], BEvent.halt, BEvent.call [4]])
        [BEvent.tick 1, BEvent.call [9], BEvent.tick 1]).flushes = [] := by
  have h1 := (batcher_abort_bug.1) Nat [3] [4]
  have h2 := (batcher_abort_bug.2) Nat
    (BatcherState.run (BatcherState.init : BatcherState Nat)
      [BEvent.call [3], BEvent.halt, BEvent.call [4]]) 1
    [BEvent.tick 1, BEvent.call [9], BEvent.tick 1]
    (by rw [h1]) (by rw [h1])
  refine ⟨by rw [h1], ?_⟩
  rw [h2.1, h1]

/-! #### Derive claim -/

/-- C7. With `quantity = atom(10)`, `price = atom(200)` and
`total = derive([quantity, price], (q, p) => q * p)`: `total.get()` is
initially 2000; `quantity.set(15)` makes `total` emit exactly one `update`
carrying 3000; a further `price.set(210)` emits exactly one more carrying
3150. In general, a real source change recomputes the projection over all
sources' current values and the derived atom emits exactly when the
recomputed value differs under its equality policy. -/
theorem derive_quantity_price :
    ((deriveInit mulSelect [10, 200]).derived = 2000 ∧
      sourceSet (fun x y : Nat => x == y) (fun x y : Nat => x == y) mulSelect
        (deriveInit mulSelect [10, 200]) 0 15 = (⟨[15, 200], 3000⟩, [3000]) ∧
      sourceSet (fun x y : Nat => x == y) (fun x y : Nat => x == y) mulSelect
        ⟨[15, 200], 3000⟩ 1 210 = (⟨[15, 210], 3150⟩, [3150])) ∧
    (∀ (V D : Type) (eqV : V → V → Bool) (eqD : D → D → Bool)
        (select : List V → D) (st : DeriveState V D) (i : Nat) (old v : V),
      st.sources[i]? = some old → eqV old v = false →
      (eqD st.derived (select (st.sources.set i v)) = true →
        sourceSet eqV eqD select st i v = (⟨st.sources.set i v, st.derived⟩, [])) ∧
      (eqD st.derived (select (st.sources.set i v)) = false →
        sourceSet eqV eqD select st i v =
          (⟨st.sources.set i v, select (st.sources.set i v)⟩,
            [select (st.sources.set i v)]))) := by
  constructor
  · refine ⟨by decide, by decide, by decide⟩
  · intro V D eqV eqD select st i old v hsrc hne
    constructor
    · intro heq
      simp [sourceSet, hsrc, hne, heq]
    · intro heq
      simp [sourceSet, hsrc, hne, heq]

/-- Witness for C7's general clauses at a concrete changed source. -/
theorem derive_quantity_price_witness :
    sourceSet (fun x y : Nat => x == y) (fun x y : Nat => x == y) mulSelect
      ⟨[10, 200], 2000⟩ 0 15 = (⟨[15, 200], 3000⟩, [3000]) :=
  ((derive_quantity_price.2 Nat Nat (fun x y : Nat => x == y)
    (fun x y : Nat => x == y) mulSelect ⟨[10, 200], 2000⟩ 0 10 15
    (by decide) (by decide)).2 (by decide))

/-! #### EventEmitter claims -/

/-- C9. `off(type, l)` removes every registration reference-equal to `l`
under `type` (so a subsequent `emit` of that type never invokes `l`, even
when it was registered several times), keeps all other listeners in their
order, leaves other types untouched, is a no-op (not an error) when the
type was never registered, and throws exactly when `type` or `listener` is
missing/falsy. -/
theorem emitter_off_semantics (ls : EmitterListeners) (t : String) (l : ListenerId) :
    (∀ li, exceptOk (EventEmitter.off ls "" li) = false) ∧
    (exceptOk (EventEmitter.off ls t none) = false) ∧
    (t ≠ "" → exceptOk (EventEmitter.off ls t (some l)) = true) ∧
    (t ≠ "" → alookup ls t = none → EventEmitter.off ls t (some l) = Except.ok ls) ∧
    (t ≠ "" → ∀ ls2, EventEmitter.off ls t (some l) = Except.ok ls2 →
      EventEmitter.emitInvoked ls2 t =
        (EventEmitter.emitInvoked ls t).filter (fun fn => fn != l) ∧
      l ∉ EventEmitter.emitInvoked ls2 t ∧
      (∀ t2, t2 ≠ t → alookup ls2 t2 = alookup ls t2)) := by
  refine ⟨?_, ?_, ?_, ?_, ?_⟩
  · intro li
    simp [EventEmitter.off, exceptOk]
  · by_cases h : t = "" <;> simp [EventEmitter.off, h, exceptOk]
  · intro h
    simp only [EventEmitter.off, h, if_false]
    cases halo : alookup ls t with
    | none => simp [exceptOk]
    | some fns =>
      by_cases hlen : (fns.filter (fun fn => fn != l)).length > 0 <;>
        simp [halo, hlen, exceptOk]
  · intro h halo
    simp [EventEmitter.off, h, halo]
  · intro h ls2 hok
    simp only [EventEmitter.off, h, if_false] at hok
    cases halo : alookup ls t with
    | none =>
      rw [halo] at hok
      cases hok
      refine ⟨?_, ?_, fun t2 _ => rfl⟩
      · simp [EventEmitter.emitInvoked, halo]
      · simp [EventEmitter.emitInvoked, halo]
    | some fns =>
      rw [halo] at hok
      by_cases hlen : (fns.filter (fun fn => fn != l)).length > 0
      · simp only [hlen, if_true, Except.ok.injEq] at hok
        subst hok
        refine ⟨?_, ?_, ?_⟩
        · simp [EventEmitter.emitInvoked, alookup_aset_self, halo]
        · simp only [EventEmitter.emitInvoked, alookup_aset_self, Option.getD_some]
          intro hmem
          rcases List.mem_filter.mp hmem with ⟨-, hcontra⟩
          simp at hcontra
        · intro t2 ht2
          exact alookup_aset_ne ls t t2 _ ht2
      · simp only [hlen, if_false, Except.ok.injEq] at hok
        subst hok
        have hnil : fns.filter (fun fn => fn != l) = [] := by
          cases hf : fns.filter (fun fn => fn != l) with
          | nil => rfl
          | cons x xs => rw [hf] at hlen; simp at hlen
        refine ⟨?_, ?_, ?_⟩
        · simp [EventEmitter.emitInvoked, alookup_aerase_self, halo, hnil]
        · simp [EventEmitter.emitInvoked, alookup_aerase_self]
        · intro t2 ht2
          exact alookup_aerase_ne ls t t2 ht2

/-- Witness for C9 on a concrete emitter: `update` holds listeners
`[1, 2, 1, 3]`; `off('update', 1)` removes both copies of 1, keeps `[2, 3]`
in order, and the falsy-argument calls fail. -/
theorem emitter_off_semantics_witness :
    (exceptOk (EventEmitter.off [("update", [1, 2, 1, 3])] "" (some 1)) = false) ∧
    (exceptOk (EventEmitter.off [("update", [1, 2, 1, 3])] "update" none) = false) ∧
    (EventEmitter.off [("other", [9])] "update" (some 1) = Except.ok [("other", [9])]) ∧
    (EventEmitter.emitInvoked [("update", [2, 3])] "update" =
      (EventEmitter.emitInvoked [("update", [1, 2, 1, 3])] "update").filter
        (fun fn => fn != 1)) ∧
    (1 ∉ EventEmitter.emitInvoked [("update", [2, 3])] "update") := by
  have h1 := emitter_off_semantics [("update", [1, 2, 1, 3])] "update" 1
  have h2 := emitter_off_semantics [("other", [9])] "update" 1
  have hok : EventEmitter.off [("update", [1, 2, 1, 3])] "update" (some 1) =
      Except.ok [("update", [2, 3])] := rfl
  have h5 := h1.2.2.2.2 (by decide) [("update", [2, 3])] hok
  exact ⟨h1.1 (some 1), h1.2.1, h2.2.2.2.1 (by decide) (by decide), h5.1, h5.2.1⟩

/-- C10 helper: a reentrant `on`/`off` can only leave the iterated array
object unchanged or grow it at the end. -/
theorem applyEmitAction_arr_extend (a : EmitAction) (st : EmitSt) :
    ∃ ext, (applyEmitAction a st).arr = st.arr ++ ext := by
  cases a with
  | idle => exact ⟨[], by simp [applyEmitAction]⟩
  | doOff l =>
    cases h : st.entry with
    | none => exact ⟨[], by simp [applyEmitAction, h]⟩
    | some fns => exact ⟨[], by simp [applyEmitAction, h]⟩
  | doOn l =>
    cases h : st.entry with
    | none => exact ⟨[], by simp [applyEmitAction, h]⟩
    | some fns =>
      cases ha : st.aliased with
      | false => exact ⟨[], by simp [applyEmitAction, h, ha]⟩
      | true => exact ⟨[l], by simp [applyEmitAction, h, ha]⟩

/-- C10 helper: the elements an emit pass reads are exactly those of the
array snapshot present when the pass started. -/
theorem emitPass_reads_snapshot (beh : ListenerId → EmitAction) :
    ∀ (ks : List Nat) (st : EmitSt) (A : List ListenerId),
      (∃ ext, st.arr = A ++ ext) → (∀ k ∈ ks, k < A.length) →
      (emitPass beh ks st).2 = ks.map (fun k => A.getD k 0) := by
  intro ks
  induction ks with
  | nil => intro st A _ _; simp [emitPass]
  | cons k rest ih =>
    intro st A hpre hks
    obtain ⟨ext, hext⟩ := hpre
    have hk : k < A.length := hks k (List.mem_cons_self k rest)
    have hread : st.arr.getD k 0 = A.getD k 0 := by
      rw [hext]
      exact List.getD_append A ext 0 k hk
    obtain ⟨ext2, hext2⟩ :=
      applyEmitAction_arr_extend (beh (st.arr.getD k 0)) st
    have hpre2 : ∃ e, (applyEmitAction (beh (st.arr.getD k 0)) st).arr = A ++ e :=
      ⟨ext ++ ext2, by rw [hext2, hext, List.append_assoc]⟩
    have := ih (applyEmitAction (beh (st.arr.getD k 0)) st) A hpre2
      (fun k2 hk2 => hks k2 (List.mem_cons_of_mem k hk2))
    simp only [emitPass]
    rw [List.map_cons, ← hread, this]

/-- C10 helper: reading every position of a list in order reproduces it. -/
theorem map_getD_range (A : List ListenerId) :
    (List.range A.length).map (fun k => A.getD k 0) = A := by
  induction A with
  | nil => simp
  | cons a A ih =>
    rw [List.length_cons, List.range_succ_eq_map, List.map_cons, List.map_map]
    simp only [List.getD_cons_zero, Function.comp_def, List.getD_cons_succ]
    rw [ih]

/-- C10. During an `emit` pass the mid-emit mutation behavior is
deterministic: the listeners invoked are exactly the entries of the array
snapshotted at the start of the pass — so a listener removed by another
listener's `off` during the pass (which installs a new filtered array
while `forEach` keeps iterating the original) is still invoked, while a
listener added via `on` during the pass is not invoked (the element count
is fixed up front) but is present in the entry afterwards and is invoked
by the next `emit`. -/
theorem emit_midmutation_deterministic :
    (∀ (beh : ListenerId → EmitAction) (fns : List ListenerId),
      (emitRun beh fns).2 = fns) ∧
    (∀ (beh : ListenerId → EmitAction) (fns : List ListenerId) (lnew : ListenerId),
      lnew ∉ fns → lnew ∉ (emitRun beh fns).2) ∧
    ((emitRun beh10 [1, 2, 3]).2 = [1, 2, 3] ∧
      (emitRun beh10 [1, 2, 3]).1.entry = some [1, 2, 4] ∧
      (∀ beh2 : ListenerId → EmitAction, 4 ∈ (emitRun beh2 [1, 2, 4]).2)) := by
  have hall : ∀ (beh : ListenerId → EmitAction) (fns : List ListenerId),
      (emitRun beh fns).2 = fns := by
    intro beh fns
    have := emitPass_reads_snapshot beh (List.range fns.length)
      { entry := some fns, arr := fns, aliased := true } fns
      ⟨[], by simp⟩ (fun k hk => List.mem_range.mp hk)
    rw [emitRun, this, map_getD_range]
  refine ⟨hall, ?_, ?_, ?_, ?_⟩
  · intro beh fns lnew hmem
    rw [hall beh fns]
    exact hmem
  · rw [hall beh10 [1, 2, 3]]
  · rfl
  · intro beh2
    rw [hall beh2 [1, 2, 4]]
    decide

/-- Witness for C10: applied to the scenario behaviors — the listener
added mid-pass (id 4) is absent from that pass's invocations. -/
theorem emit_midmutation_deterministic_witness :
    4 ∉ (emitRun beh10 [1, 2, 3]).2 :=
  emit_midmutation_deterministic.2.1 beh10 [1, 2, 3] 4 (by decide)

/-! #### List helpers for the atom store -/

theorem concat_getElem_self {α : Type} (l : List α) (x : α) :
    (l ++ [x])[l.length]? = some x := by
  induction l with
  | nil => rfl
  | cons a l ih => simp [ih]

theorem set_concat_self {α : Type} (l : List α) (x y : α) :
    (l ++ [x]).set l.length y = l ++ [y] := by
  induction l with
  | nil => rfl
  | cons a l ih => simp [List.set, ih]

/-! #### Collection structural lemmas -/

theorem atomUnsub_colAtoms {V : Type} (w : World V) (aid sid : Nat) :
    (atomUnsub w aid sid).colAtoms = w.colAtoms := by
  cases h : w.atoms[aid]? <;> simp [atomUnsub, h]

theorem addAtom_colAtoms {V : Type} [Inhabited V] (w : World V) (k : String) (aid : Nat) :
    (addAtom w k aid).colAtoms = aset w.colAtoms k aid := by
  cases h1 : alookup w.colAtoms k with
  | none => cases h3 : w.atoms[aid]? <;> simp [addAtom, h1, h3]
  | some a0 =>
    cases h2 : alookup w.colMeta k with
    | none => cases h3 : w.atoms[aid]? <;> simp [addAtom, h1, h2, h3]
    | some m =>
      cases h3 : (atomUnsub w m.1 m.2).atoms[aid]? <;>
        simp [addAtom, h1, h2, h3, atomUnsub_colAtoms]

theorem removeAtom_noop {V : Type} (w : World V) (k : String)
    (h : alookup w.colAtoms k = none) : removeAtom w k = w := by
  simp [removeAtom, h]

theorem removeAtom_colAtoms_some {V : Type} (w : World V) (k : String) {aid : Nat}
    (h : alookup w.colAtoms k = some aid) :
    (removeAtom w k).colAtoms = aerase w.colAtoms k := by
  cases h2 : alookup w.colMeta k <;>
    simp [removeAtom, h, h2, atomUnsub_colAtoms]

theorem colSyncStep_self {V : Type} [Inhabited V] (inc : List (String × Nat))
    (w : World V) (k : String) :
    alookup (colSyncStep inc w k).colAtoms k = alookup inc k := by
  cases h : alookup inc k with
  | none =>
    simp only [colSyncStep, h]
    cases h2 : alookup w.colAtoms k with
    | none => rw [removeAtom_noop w k h2, h2]
    | some a => rw [removeAtom_colAtoms_some w k h2, alookup_aerase_self]
  | some aid =>
    simp only [colSyncStep, h]
    rw [addAtom_colAtoms, alookup_aset_self]

theorem colSyncStep_other {V : Type} [Inhabited V] (inc : List (String × Nat))
    (w : World V) (k k2 : String) (h : k2 ≠ k) :
    alookup (colSyncStep inc w k).colAtoms k2 = alookup w.colAtoms k2 := by
  cases hh : alookup inc k with
  | none =>
    simp only [colSyncStep, hh]
    cases h2 : alookup w.colAtoms k with
    | none => rw [removeAtom_noop w k h2]
    | some a => rw [removeAtom_colAtoms_some w k h2]; exact alookup_aerase_ne _ _ _ h
  | some aid =>
    simp only [colSyncStep, hh]
    rw [addAtom_colAtoms]
    exact alookup_aset_ne _ _ _ _ h

theorem colSync_fold_not_mem {V : Type} [Inhabited V] (inc : List (String × Nat)) :
    ∀ (ks : List String) (w : World V) (k : String), k ∉ ks →
      alookup (ks.foldl (colSyncStep inc) w).colAtoms k = alookup w.colAtoms k := by
  intro ks
  induction ks with
  | nil => intro w k _; rfl
  | cons k0 rest ih =>
    intro w k h
    have h1 : k ≠ k0 := fun e => h (e ▸ List.mem_cons_self k0 rest)
    have h2 : k ∉ rest := fun e => h (List.mem_cons_of_mem k0 e)
    rw [List.foldl_cons, ih _ k h2, colSyncStep_other inc w k0 k h1]

theorem colSync_fold_mem {V : Type} [Inhabited V] (inc : List (String × Nat)) :
    ∀ (ks : List String) (w : World V) (k : String), k ∈ ks →
      alookup (ks.foldl (colSyncStep inc) w).colAtoms k = alookup inc k := by
  intro ks
  induction ks with
  | nil => intro w k h; cases h
  | cons k0 rest ih =>
    intro w k h
    by_cases hr : k ∈ rest
    · exact ih (colSyncStep inc w k0) k hr
    · have hk : k = k0 := by
        rcases List.mem_cons.mp h with h1 | h1
        · exact h1
        · exact absurd h1 hr
      subst hk
      rw [List.foldl_cons, colSync_fold_not_mem inc rest _ k hr, colSyncStep_self]

/-- Installing a fresh atom (just appended to the store) at a key with no
existing child: the exact result state of `_addAtom`. -/
theorem addAtom_fresh {V : Type} [Inhabited V] (w : World V) (k : String) (v : V)
    (h : alookup w.colAtoms k = none) :
    addAtom { w with atoms := w.atoms ++ [{ value := v, listeners := [] }] }
        k w.atoms.length =
      { atoms := w.atoms ++ [{ value := v, listeners := [SubRec.mk w.nextSid k] }],
        colValue := aset w.colValue k v,
        colAtoms := aset w.colAtoms k w.atoms.length,
        colMeta := aset w.colMeta k (w.atoms.length, w.nextSid),
        nextSid := w.nextSid + 1,
        events := w.events ++ [aset w.colValue k v] } := by
  simp [addAtom, h, concat_getElem_self, set_concat_self]

/-! #### Collection claims -/

/-- C2 counterexample. `set` on an empty Collection with `{a: 5}` does not
ignore the unknown key: it creates a fresh child Atom at `a` (the key set
grows and the snapshot gains the entry), contradicting the claim that
`set` never creates a child. -/
theorem collection_set_ignores_counterexample :
    colKeys (colSet (World.empty : World Nat) [("a", 5)]) = ["a"] ∧
    colKeys (World.empty : World Nat) = [] ∧
    alookup (colSet (World.empty : World Nat) [("a", 5)]).colValue "a" = some 5 :=
  ⟨rfl, rfl, rfl⟩

/-- C2 (amended). `Collection.set` processes the argument's keys in order;
a key with an existing child has its value forwarded to that child's `set`;
a key with **no** existing child is not ignored: a fresh Atom holding the
value is allocated, installed and subscribed at that key (per the source's
own doc comment, "in case atom with such id doesnt exist, it will be
created"). -/
theorem collection_set_amended {V : Type} [BEq V] [Inhabited V]
    (w : World V) (k : String) (v : V) (rest : List (String × V)) :
    (colSet w ((k, v) :: rest) = colSet (colSetStep w k v) rest) ∧
    (∀ aid, alookup w.colAtoms k = some aid → colSetStep w k v = atomSet w aid v) ∧
    (alookup w.colAtoms k = none →
      alookup (colSetStep w k v).colAtoms k = some w.atoms.length ∧
      (colSetStep w k v).atoms[w.atoms.length]? =
        some { value := v, listeners := [SubRec.mk w.nextSid k] } ∧
      alookup (colSetStep w k v).colValue k = some v) := by
  refine ⟨rfl, ?_, ?_⟩
  · intro aid h
    simp [colSetStep, h]
  · intro h
    have hstep : colSetStep w k v =
        addAtom { w with atoms := w.atoms ++ [{ value := v, listeners := [] }] }
          k w.atoms.length := by
      simp [colSetStep, h]
    rw [hstep, addAtom_fresh w k v h]
    exact ⟨alookup_aset_self _ _ _, concat_getElem_self _ _, alookup_aset_self _ _ _⟩

/-- Witness for C2's amended claim: forwarding to an existing child, and
creation at a missing key, on concrete states. -/
theorem collection_set_amended_witness :
    (colSetStep (colSet (World.empty : World Nat) [("a", 5)]) "a" 6 =
      atomSet (colSet (World.empty : World Nat) [("a", 5)]) 0 6) ∧
    (alookup (colSetStep (World.empty : World Nat) "a" 5).colAtoms "a" = some 0) := by
  have h1 := (collection_set_amended (colSet (World.empty : World Nat) [("a", 5)])
    "a" 6 []).2.1 0 rfl
  have h2 := ((collection_set_amended (World.empty : World Nat) "a" 5 []).2.2 rfl).1
  exact ⟨h1, h2⟩

/-- C3 counterexample. Collection `{x: atom0}`, `sync({x: atom1})`: the
incoming container replaces the existing one (child at `x` becomes atom 1,
not the kept original atom 0), and the key `x`, present on both sides, is
processed twice — two `update` emissions — not "exactly once per key". -/
theorem collection_sync_counterexample :
    alookup w1c3.colAtoms "x" = some 0 ∧
    alookup (colSync w1c3 [("x", 1)]).colAtoms "x" = some 1 ∧
    (colSync w1c3 [("x", 1)]).events.length = w1c3.events.length + 2 :=
  ⟨rfl, rfl, rfl⟩

/-- C3 (amended). After `sync(atomsByKey)` the Collection's child map
agrees pointwise with the argument: every key of the argument holds
exactly the **incoming** container (an existing container at that key is
replaced, its subscription torn down first), and every other key is
absent. Keys present in both the Collection and the argument occur twice
in the iterated key list and are processed once per occurrence. -/
theorem collection_sync_amended {V : Type} [Inhabited V] (w : World V)
    (incoming : List (String × Nat)) (k : String) :
    alookup (colSync w incoming).colAtoms k = alookup incoming k := by
  unfold colSync
  by_cases h : k ∈ colKeys w ++ incoming.map Prod.fst
  · exact colSync_fold_mem incoming _ w k h
  · rw [colSync_fold_not_mem incoming _ w k h]
    simp only [List.mem_append, not_or, colKeys] at h
    rw [alookup_eq_none_of_not_mem w.colAtoms k h.1,
      alookup_eq_none_of_not_mem incoming k h.2]

/-- C4 counterexample. `Collection.from({x: atomRef0})` with a pre-existing
Atom (index 0, value 5): the installed child is a **fresh clone** (index
1), not the given container; the original atom gains no subscription, and
a later `set` on the original leaves the Collection snapshot at the old
value — its identity was not reused, contradicting the claim. -/
theorem collection_from_counterexample :
    alookup (collectionFrom wC4 [("x", AtomOrValue.ref 0)]).colAtoms "x" = some 1 ∧
    (collectionFrom wC4 [("x", AtomOrValue.ref 0)]).atoms[0]? =
      some { value := 5, listeners := [] } ∧
    alookup (atomSet (collectionFrom wC4 [("x", AtomOrValue.ref 0)]) 0 99).colValue "x" =
      some 5 :=
  ⟨rfl, rfl, rfl⟩

/-- C4 (amended). Every entry of `Collection.from` is routed through
`Atom.from`, which always allocates a brand-new Atom: a plain value is
wrapped into a fresh Atom holding it, and an Atom-capable value is
**cloned** into a fresh Atom holding its current value (the produced index
is the next store index, never the given container's index); the
Collection installs the fresh atom. -/
theorem collection_from_amended {V : Type} [Inhabited V] (w : World V) :
    (∀ v : V, atomFrom w (AtomOrValue.plain v) =
      ({ w with atoms := w.atoms ++ [{ value := v, listeners := [] }] }, w.atoms.length)) ∧
    (∀ aid a, w.atoms[aid]? = some a →
      atomFrom w (AtomOrValue.ref aid) =
        ({ w with atoms := w.atoms ++ [{ value := a.value, listeners := [] }] },
          w.atoms.length) ∧
      (atomFrom w (AtomOrValue.ref aid)).2 ≠ aid) ∧
    (∀ (k : String) (x : AtomOrValue V),
      alookup (collectionFrom w [(k, x)]).colAtoms k = some w.atoms.length) := by
  refine ⟨fun v => rfl, ?_, ?_⟩
  · intro aid a h
    have hlt : aid < w.atoms.length := by
      by_contra hge
      rw [List.getElem?_eq_none (Nat.le_of_not_lt hge)] at h
      exact Option.noConfusion h
    refine ⟨by simp [atomFrom, h], ?_⟩
    simp only [atomFrom]
    exact fun e => absurd (e ▸ hlt) (lt_irrefl aid)
  · intro k x
    show alookup (addAtom (atomFrom w x).1 k (atomFrom w x).2).colAtoms k = _
    rw [addAtom_colAtoms, alookup_aset_self]
    rfl

/-- Witness for C4's amended claim at the concrete pre-existing atom. -/
theorem collection_from_amended_witness :
    atomFrom wC4 (AtomOrValue.ref 0) =
      ({ wC4 with atoms := wC4.atoms ++ [{ value := 5, listeners := [] }] }, 1) ∧
    (atomFrom wC4 (AtomOrValue.ref 0)).2 ≠ 0 := by
  have h := (collection_from_amended wC4).2.1 0 { value := 5, listeners := [] } rfl
  exact ⟨h.1, h.2⟩

/-- C8. After `c.add({x: atomA}); c.add({x: atomB})` (atomA = index 0,
atomB = index 1), the Collection's listener has been removed from atomA
before atomB was subscribed: atomA carries no subscription and atomB
exactly one; consequently any `set` on atomA emits no Collection `update`
and leaves the snapshot untouched, while a changing `set` on atomB emits
exactly one `update` with the refreshed snapshot. -/
theorem collection_key_replacement :
    (w8.atoms[0]? = some { value := 1, listeners := [] }) ∧
    (w8.atoms[1]? = some { value := 2, listeners := [SubRec.mk 1 "x"] }) ∧
    (∀ v, (atomSet w8 0 v).events = w8.events ∧ (atomSet w8 0 v).colValue = w8.colValue) ∧
    (∀ v, ((2 : Nat) == v) = false →
      (atomSet w8 1 v).events = w8.events ++ [aset w8.colValue "x" v] ∧
      alookup (atomSet w8 1 v).colValue "x" = some v) := by
  refine ⟨rfl, rfl, ?_, ?_⟩
  · intro v
    cases h : ((1 : Nat) == v) with
    | true =>
      constructor <;>
        simp [atomSet, show w8.atoms[0]? = some { value := 1, listeners := [] } from rfl, h]
    | false =>
      constructor <;>
        simp [atomSet, show w8.atoms[0]? = some { value := 1, listeners := [] } from rfl, h,
          notifySubs]
  · intro v h
    have : atomSet w8 1 v =
        { w8 with
          atoms := w8.atoms.set 1 { value := v, listeners := [SubRec.mk 1 "x"] },
          colValue := aset w8.colValue "x" v,
          events := w8.events ++ [aset w8.colValue "x" v] } := by
      simp [atomSet, show w8.atoms[1]? = some { value := 2, listeners := [SubRec.mk 1 "x"] } from rfl,
        h, notifySubs, colHandler]
    rw [this]
    exact ⟨rfl, alookup_aset_self _ _ _⟩

/-- Witness for C8: atomA-set is inert and atomB-set emits, at `v = 7`. -/
theorem collection_key_replacement_witness :
    ((atomSet w8 0 7).events = w8.events) ∧
    ((atomSet w8 1 7).events = w8.events ++ [aset w8.colValue "x" 7]) :=
  ⟨(collection_key_replacement.2.2.1 7).1,
   (collection_key_replacement.2.2.2 7 rfl).1⟩

end Reactivex
